import Mathlib

/-!
Verification of the StockDashboard quote-acquisition core.

The repository has two quote-acquisition entry points:
* a serverless handler (`api/stocks.ts`): `uniqueSymbols`, `mockData`,
  `finnhubQuote`, `alphaVantageQuote`, `handler`;
* a client-side service (`stockService` module): `num`, `jitter`,
  `makeMockRow`, `buildMock`, `fetchQuote`, `fetchStocks`.

This file gives a shallow embedding of both.  JavaScript numbers are
modelled by `ℚ` for finite values; the value NaN (and likewise the
non-finite infinities) is modelled by `none` in the type `JsNum :=
Option ℚ`.  Network behaviour is a parameter: every `fetch`/`json`
interaction is an oracle argument, with `Except Unit` marking calls
that can throw (a `.error` value is a thrown transport error or a
malformed-JSON rejection).  `Math.sin` is an abstract function `ℤ → ℚ`
bounded in `[-1, 1]`, carried by an `Env` record together with the
wall clock.  `toFixed(2)` and `Math.round` are modelled exactly over
`ℚ` with the round-half-up rule of the ECMAScript spec; binary
floating-point rounding error is abstracted away.
-/

/-! ### Characters and JS string helpers -/

/-- Whitespace test used by the model of `String.prototype.trim`.
JS trims all Unicode whitespace; the model covers space, tab, LF and CR,
which suffices for the ASCII inputs handled by this repository. -/
def isWsB (c : Char) : Bool :=
  decide (c.toNat = 32 ∨ c.toNat = 9 ∨ c.toNat = 10 ∨ c.toNat = 13)

/-- Model of `toUpperCase` on one character (ASCII range; JS also maps
non-ASCII letters, which never occur in ticker symbols). -/
def upChar (c : Char) : Char :=
  if 97 ≤ c.toNat ∧ c.toNat ≤ 122 then Char.ofNat (c.toNat - 32) else c

/-- Remove trailing whitespace from a character list. -/
def backTrim (l : List Char) : List Char :=
  (List.dropWhile isWsB l.reverse).reverse

/-- Model of `String.prototype.trim` on the character list. -/
def trimChars (l : List Char) : List Char :=
  backTrim (List.dropWhile isWsB l)

/-- Model of `String.prototype.trim`. -/
def jsTrim (s : String) : String :=
  String.mk (trimChars s.data)

/-- Model of `String.prototype.toUpperCase`. -/
def jsUpperS (s : String) : String :=
  String.mk (s.data.map upChar)

/-- `s.trim().toUpperCase()`, the per-symbol normalisation both entry
points apply to every requested ticker. -/
def jsNorm (s : String) : String :=
  jsUpperS (jsTrim s)

/-- First-occurrence de-duplication with an accumulator of symbols
already seen; models iterating `new Set(...)` over a string array. -/
def dedupAux (seen : List String) : List String → List String
  | [] => []
  | x :: xs => if x ∈ seen then dedupAux seen xs else x :: dedupAux (x :: seen) xs

/-- Model of `Array.from(new Set(arr))`: first-occurrence de-duplication. -/
def dedup (l : List String) : List String :=
  dedupAux [] l

/-- Model of `str.split(",")` at the character-list level.  JS returns
`[""]` for the empty string and keeps empty segments. -/
def splitCommaChars : List Char → List (List Char)
  | [] => [[]]
  | c :: cs =>
    match splitCommaChars cs with
    | [] => [[]]
    | h :: t => if c = ',' then [] :: h :: t else (c :: h) :: t

/-- Model of `str.split(",")`. -/
def splitComma (s : String) : List String :=
  (splitCommaChars s.data).map String.mk

/-! ### The JS `Number(string)` conversion

`jsParseNum` models ECMAScript `ToNumber` applied to a string, restricted
to the decimal forms that occur here: optional sign, decimal digits with
an optional fraction and an optional exponent, the empty/whitespace-only
string (which converts to `0`), and `Infinity`.  A result of `none`
means the conversion produced no finite value (NaN or an infinity);
`Number.isFinite` is false exactly on those.  Hexadecimal/octal/binary
literal prefixes are not modelled (they never arise from the providers).
The parse is kept in `ℕ`/`ℤ` parts (`NumParts`) and only assembled into
`ℚ` at the end, mirroring an exact-value reading of the float result. -/

/-- Decimal digit test. -/
def isDigitB (c : Char) : Bool :=
  decide (48 ≤ c.toNat ∧ c.toNat ≤ 57)

/-- Value of a digit string (most significant first). -/
def digitsVal (l : List Char) : ℕ :=
  l.foldl (fun a c => a * 10 + (c.toNat - 48)) 0

/-- Parse a non-empty all-digit string. -/
def parseDigits (l : List Char) : Option ℕ :=
  if l ≠ [] ∧ l.all isDigitB then some (digitsVal l) else none

/-- Parse an optionally signed digit string (the exponent part). -/
def parseSignedInt : List Char → Option ℤ
  | [] => none
  | c :: cs =>
    if c = '+' then (parseDigits cs).map (fun n => (n : ℤ))
    else if c = '-' then (parseDigits cs).map (fun n => -(n : ℤ))
    else (parseDigits (c :: cs)).map (fun n => (n : ℤ))

/-- Split at the first character satisfying `p`; the second component is
the remainder after that character when one exists. -/
def splitAtChar (p : Char → Bool) : List Char → List Char × Option (List Char)
  | [] => ([], none)
  | c :: cs =>
    if p c then ([], some cs)
    else
      match splitAtChar p cs with
      | (pre, rest) => (c :: pre, rest)

/-- The unsigned decimal components of a JS number literal. -/
structure NumParts where
  neg : Bool
  ip : ℕ
  fp : ℕ
  fplen : ℕ
  ex : ℤ
  deriving DecidableEq, Repr

/-- Parse the mantissa `digits[.digits]` (either side may be empty but
not both); a second `.` yields NaN. -/
def parseMantissa (l : List Char) : Option (ℕ × ℕ × ℕ) :=
  match splitAtChar (fun c => c = '.') l with
  | (ip, none) => (parseDigits ip).map (fun n => (n, 0, 0))
  | (ip, some fp) =>
    if fp.any (fun c => c = '.') then none
    else if (ip.all isDigitB ∧ fp.all isDigitB) ∧ (ip ≠ [] ∨ fp ≠ []) then
      some (digitsVal ip, digitsVal fp, fp.length)
    else none

/-- The character list of the literal `Infinity`. -/
def infinityChars : List Char :=
  ['I', 'n', 'f', 'i', 'n', 'i', 't', 'y']

/-- Parse an unsigned JS number literal into parts; `none` is NaN or an
infinity (no finite value). -/
def jsParseUns (l : List Char) (neg : Bool) : Option NumParts :=
  if l = infinityChars then none
  else
    match splitAtChar (fun c => c = 'e' ∨ c = 'E') l with
    | (mant, none) => (parseMantissa mant).map (fun m => ⟨neg, m.1, m.2.1, m.2.2, 0⟩)
    | (mant, some e) =>
      match parseSignedInt e with
      | none => none
      | some ex => (parseMantissa mant).map (fun m => ⟨neg, m.1, m.2.1, m.2.2, ex⟩)

/-- Parse a whole (already trimmed, non-empty) JS number literal. -/
def jsParseParts (l : List Char) : Option NumParts :=
  let t := trimChars l
  match t with
  | [] => some ⟨false, 0, 0, 0, 0⟩
  | c :: cs =>
    if c = '+' then jsParseUns cs false
    else if c = '-' then jsParseUns cs true
    else jsParseUns t false

/-- Assemble the parsed parts into the exact rational value. -/
def assembleQ (p : NumParts) : ℚ :=
  (if p.neg then (-1 : ℚ) else 1) *
    (((p.ip : ℚ) + (p.fp : ℚ) / (10 : ℚ) ^ p.fplen) * (10 : ℚ) ^ p.ex)

/-- Model of `Number(s)` followed by the finiteness test: `some q` when
the string converts to the finite value `q`, `none` otherwise. -/
def jsParseNum (s : String) : Option ℚ :=
  (jsParseParts s.data).map assembleQ

/-- Model of `String(x).replace(/[,%]/g, "").replace(/,/g, "")`: both
call sites strip grouping commas and percent signs before `Number`. -/
def stripCP (s : String) : String :=
  String.mk (s.data.filter (fun c => ¬(c = ',' ∨ c = '%')))

/-! ### Canonical record shapes (`types.ts`) -/

/-- A JavaScript number: `some q` is the finite value `q`; `none` is a
non-finite value (NaN or an infinity). -/
abbrev JsNum := Option ℚ

/-- `StockData` from `types.ts` / `api/stocks.ts`.  `marketCap` and
`volume` are optional fields (`none` = the field is `undefined`). -/
structure StockData where
  symbol : String
  price : JsNum
  change : JsNum
  changePercent : JsNum
  marketCap : Option JsNum
  volume : Option JsNum
  lastUpdated : String
  deriving DecidableEq

/-- `StockApiResponse`: the quote result envelope. -/
structure StockApiResponse where
  stocks : List StockData
  error : Option String
  deriving DecidableEq

/-- Ambient execution environment: the wall clock (`Date.now()` in
milliseconds and the ISO rendering of the current instant), the
`Date.parse`-success test with the market-close ISO rendering used for
provider trading days, and `Math.sin` as an abstract function bounded
in `[-1, 1]`. -/
structure Env where
  nowMs : ℕ
  nowIso : String
  dateParseOk : String → Bool
  isoClose : String → String
  msin : ℤ → ℚ
  msin_bound : ∀ z : ℤ, -1 ≤ msin z ∧ msin z ≤ 1

/-- `Math.floor(Date.now() / 60_000)`: the current minute bucket. -/
def minuteBucket (env : Env) : ℕ :=
  env.nowMs / 60000

/-- Exact model of `+x.toFixed(2)` (round half away from zero toward
larger `n`, per the ECMAScript `toFixed` spec). -/
def toFixed2 (q : ℚ) : ℚ :=
  ((⌊q * 100 + 1 / 2⌋ : ℤ) : ℚ) / 100

/-- Exact model of `Math.round`. -/
def jround (q : ℚ) : ℤ :=
  ⌊q + 1 / 2⌋

/-- Truthiness of an optional string (`undefined` and `""` are falsy). -/
def truthyS (x : Option String) : Bool :=
  match x with
  | none => false
  | some s => decide (s ≠ "")

/-- `x || dflt` for an optional string. -/
def jsOr (x : Option String) (dflt : String) : String :=
  match x with
  | none => dflt
  | some s => if s = "" then dflt else s

/-- Baseline preset `{price, cap, vol}` used by both mock generators. -/
structure Preset where
  price : ℚ
  cap : ℚ
  vol : ℚ
  deriving DecidableEq

/-- `MOCK_PRESETS`: both files carry this identical table. -/
def MOCK_PRESETS : List (String × Preset) :=
  [("AAPL", ⟨230.12, 3.55e12, 58000000⟩),
   ("MSFT", ⟨430.34, 3.2e12, 29000000⟩),
   ("GOOGL", ⟨168.77, 2.1e12, 26000000⟩),
   ("AMZN", ⟨178.45, 1.85e12, 41200000⟩),
   ("NVDA", ⟨121.65, 2.9e12, 52400000⟩),
   ("TSLA", ⟨249.02, 0.77e12, 95000000⟩),
   ("META", ⟨512.22, 1.3e12, 19000000⟩)]

/-- The fixed default symbol set (identical in both files). -/
def defaultSymbols : List String :=
  ["AAPL", "MSFT", "GOOGL", "AMZN", "NVDA"]

/-- `symbol.charCodeAt(0)`.  JS yields NaN on the empty string; every
call site filters out empty symbols first, so `0` is a safe stand-in. -/
def jsCharCode0 (s : String) : ℕ :=
  match s.data with
  | [] => 0
  | c :: _ => c.toNat

/-- `list.map((x, i) => f i x)`: JS `map` with the index argument. -/
def mapWithIndexAux (f : ℕ → α → β) : ℕ → List α → List β
  | _, [] => []
  | i, a :: as => f i a :: mapWithIndexAux f (i + 1) as

/-- JS `array.map((x, i) => ...)`. -/
def mapWithIndex (f : ℕ → α → β) (l : List α) : List β :=
  mapWithIndexAux f 0 l

/-- `new Date(latestDay + "T16:00:00Z")...` fallback logic shared by the
two Alpha Vantage adapters: use the provider trading day anchored at
market close when it is present and parses, else the current instant. -/
def lastUpd (env : Env) (latestDay : Option String) : String :=
  match latestDay with
  | none => env.nowIso
  | some d => if decide (d ≠ "") && env.dateParseOk d then env.isoClose d else env.nowIso

/-- The rightmost row with the given symbol: models `merged.get(s)` for
the `Map` built by `for (const r of list) merged.set(r.symbol, r)`
(later writes win). -/
def lookupLast (l : List StockData) (k : String) : Option StockData :=
  match l with
  | [] => none
  | r :: rs =>
    match lookupLast rs k with
    | some x => some x
    | none => if r.symbol = k then some r else none

/-- `.catch(() => v)` on a promise: a thrown error becomes `v`. -/
def jsCatch (e : Except Unit α) (v : α) : α :=
  match e with
  | .error _ => v
  | .ok a => a

/-! ### Alpha Vantage payload shapes -/

/-- The `"Global Quote"` object: each field may be missing.  `noKeys`
records `Object.keys(g).length === 0` (true only when a present object
has no keys at all). -/
structure GlobalQuote where
  sym01 : Option String
  price05 : Option String
  volume06 : Option String
  latestDay07 : Option String
  change09 : Option String
  changePercent10 : Option String
  noKeys : Bool
  deriving DecidableEq

/-- An Alpha Vantage GLOBAL_QUOTE response body: the optional
`"Global Quote"` object plus the rate-limit markers. -/
structure AVResp where
  globalQuote : Option GlobalQuote
  note : Option String
  information : Option String
  deriving DecidableEq

/-- An Alpha Vantage OVERVIEW response body. -/
structure Overview where
  note : Option String
  marketCapitalization : Option String
  deriving DecidableEq

/-! ### Client-side service (`stockService`) -/

namespace Client

/-- Client `num`: strip `[,%]`, `Number(...)`, keep only finite values
(`Number.isFinite(n) ? n : undefined`). -/
def num (x : Option String) : Option ℚ :=
  x.bind (fun s => jsParseNum (jsTrim (stripCP s)))

/-- Client `rateLimited`: `Boolean(obj?.Note) || Boolean(obj?.Information)`. -/
def rateLimited (d : AVResp) : Bool :=
  truthyS d.note || truthyS d.information

/-- Client `jitter`: stable minute jitter,
`frac(Math.sin(seed * 997 + minuteBucket) * 10000)`. -/
def jitter (env : Env) (seed : ℕ) : ℚ :=
  let x := env.msin ((seed : ℤ) * 997 + (minuteBucket env : ℤ)) * 10000
  x - (⌊x⌋ : ℤ)

/-- The baseline the client mock generator uses for `symbol` at list
position `i`: the preset, or the synthetic fallback. -/
def mockBase (symbol : String) (i : ℕ) : Preset :=
  (MOCK_PRESETS.lookup symbol).getD
    ⟨100 + ((i % 8 : ℕ) : ℚ) * 9, 1e11 + (i : ℚ) * 7e9, 5000000 + (i : ℚ) * 250000⟩

/-- Client `makeMockRow`. -/
def makeMockRow (env : Env) (symbol : String) (i : ℕ) : StockData :=
  let b := mockBase symbol i
  let r := jitter env (i + jsCharCode0 symbol)
  let pct := r * 6 - 3
  let price := toFixed2 (b.price * (1 + pct / 100))
  let changePercent := toFixed2 pct
  let change := toFixed2 (price * changePercent / 100)
  let volume := max 1 (jround (b.vol * (0.85 + r * 0.3)))
  { symbol := symbol
    price := some price
    change := some change
    changePercent := some changePercent
    marketCap := some (some ((jround b.cap : ℤ) : ℚ))
    volume := some (some ((volume : ℤ) : ℚ))
    lastUpdated := env.nowIso }

/-- The symbol normalisation both `buildMock` and `fetchStocks` apply:
trim, upper-case, drop empties, de-duplicate (first occurrence). -/
def normalize (l : List String) : List String :=
  dedup ((l.map jsNorm).filter (fun s => decide (s ≠ "")))

/-- Client `buildMock`: normalise, substitute the default set when the
result is empty, and generate one mock row per symbol. -/
def buildMock (env : Env) (symbols : List String) : List StockData :=
  let uniq := normalize symbols
  mapWithIndex (fun i s => makeMockRow env s i) (if uniq.isEmpty then defaultSymbols else uniq)

/-- Client `fetchQuote`: the whole body sits in `try ... catch { return
null }`, so a thrown fetch/json error (`net = .error`) becomes `none`. -/
def fetchQuote (net : Except Unit AVResp) (env : Env) (symbol : String) : Option StockData :=
  match net with
  | .error _ => none
  | .ok data =>
    if rateLimited data then none
    else
      match data.globalQuote with
      | none => none
      | some g =>
        if g.noKeys then none
        else
          match num g.price05, num g.change09, num g.changePercent10 with
          | some price, some change, some changePercent =>
            some
              { symbol := jsOr g.sym01 symbol
                price := some price
                change := some change
                changePercent := some changePercent
                marketCap := none
                volume := (num g.volume06).map some
                lastUpdated := lastUpd env g.latestDay07 }
          | _, _, _ => none

/-- Diagnostic for the no-credential path. -/
def noKeyMsg : String := "No Alpha Vantage key found. Showing mock data."

/-- Diagnostic for the zero-usable-rows path. -/
def limitMsg : String := "Alpha Vantage daily limit reached or no data returned. Showing mock data."

/-- Diagnostic for the partial-fallback path. -/
def partialMsg : String := "Some symbols could not be refreshed (likely rate limit). Mock data shown for those entries."

/-- Client `fetchStocks`: normalise, full mock without a key, one
`fetchQuote` per symbol (collecting `rows`/`failed`), then the full-mock,
partial-merge, or all-good result.  `net` gives each symbol's network
outcome (`.error` = the fetch/json promise rejected). -/
def fetchStocks (env : Env) (apiKey : Bool) (net : String → Except Unit AVResp)
    (inputSymbols : List String) : StockApiResponse :=
  let symbols := normalize inputSymbols
  if !apiKey then
    { stocks := buildMock env symbols, error := some noKeyMsg }
  else
    let rows := symbols.filterMap (fun s => fetchQuote (net s) env s)
    let failed := symbols.filter (fun s => (fetchQuote (net s) env s).isNone)
    if rows.isEmpty then
      { stocks := buildMock env symbols, error := some limitMsg }
    else if !failed.isEmpty then
      let mocks := buildMock env failed
      { stocks := symbols.filterMap (fun s => lookupLast (rows ++ mocks) s)
        error := some partialMsg }
    else
      { stocks := rows, error := none }

end Client

/-! ### Serverless function (`api/stocks.ts`) -/

namespace Server

/-- A Finnhub `/quote` JSON body.  JSON numbers are always finite, so
the fields are `Option ℚ` (`none` = the key is missing or not a number;
`typeof d.c === "number"` is `isSome`). -/
structure FinnQuote where
  c : Option ℚ
  pc : Option ℚ
  d : Option ℚ
  dp : Option ℚ
  v : Option ℚ
  deriving DecidableEq

/-- A Finnhub `/stock/profile2` JSON body. -/
structure FinnProfile where
  marketCapitalization : Option ℚ
  deriving DecidableEq

/-- Server `num` (inside `alphaVantageQuote`): strip `[,%]` and convert,
with NO finiteness check — `x == null ? undefined : Number(...)`, so an
unparseable present string yields NaN (`some none`), not `undefined`. -/
def num (x : Option String) : Option JsNum :=
  x.map (fun s => jsParseNum (stripCP s))

/-- Server `uniqueSymbols`: absent query → the default list joined and
re-split; then trim/upper-case/drop-empties/de-duplicate. -/
def uniqueSymbols (syms : Option String) : List String :=
  let raw := splitComma (syms.getD (String.intercalate "," defaultSymbols))
  dedup ((raw.map jsNorm).filter (fun s => decide (s ≠ "")))

/-- The baseline the serverless mock generator uses for `symbol` at
position `i`. -/
def mockBase (symbol : String) (i : ℕ) : Preset :=
  (MOCK_PRESETS.lookup symbol).getD
    ⟨100 + ((i % 7 : ℕ) : ℚ) * 7, 1e11, 5000000 + (i : ℚ) * 150000⟩

/-- The pseudo-random fraction of the serverless mock generator:
`Math.sin(i * 997 + minuteBucket) * 0.5 + 0.5`. -/
def mockR (env : Env) (i : ℕ) : ℚ :=
  env.msin ((i : ℤ) * 997 + (minuteBucket env : ℤ)) * 0.5 + 0.5

/-- One row of the serverless `mockData` map body. -/
def mockRow (env : Env) (i : ℕ) (s : String) : StockData :=
  let base := mockBase s i
  let r := mockR env i
  let pct := r * 6 - 3
  let price := toFixed2 (base.price * (1 + pct / 100))
  let changePercent := toFixed2 pct
  let change := toFixed2 (price * changePercent / 100)
  let volume := max 1 (jround (base.vol * (0.8 + r * 0.4)))
  { symbol := s
    price := some price
    change := some change
    changePercent := some changePercent
    marketCap := some (some ((jround base.cap : ℤ) : ℚ))
    volume := some (some ((volume : ℤ) : ℚ))
    lastUpdated := env.nowIso }

/-- Serverless full-mock diagnostic. -/
def mockMsg : String := "Using mock data (provider unavailable or rate-limited)."

/-- Serverless `mockData`: one mock row per symbol, always with the
mock diagnostic. -/
def mockData (env : Env) (symbols : List String) : StockApiResponse :=
  { stocks := mapWithIndex (fun i s => mockRow env i s) symbols
    error := some mockMsg }

/-- Serverless `finnhubQuote`.  `qNet` is the quote `fetch`+`json`
result (a rejection propagates to the caller); `pNet` is the profile:
its outer layer is the `fetch` (a rejection also propagates — only the
`json()` rejection is caught by `.catch(() => ({}))`, the inner layer). -/
def finnhubQuote (qNet : Except Unit (Option FinnQuote))
    (pNet : Except Unit (Except Unit FinnProfile)) (env : Env) (symbol : String) :
    Except Unit (Option StockData) :=
  match qNet with
  | .error e => .error e
  | .ok none => .ok none
  | .ok (some d) =>
    match d.c with
    | none => .ok none
    | some c =>
      match pNet with
      | .error e => .error e
      | .ok pj =>
        let p := jsCatch pj ⟨none⟩
        let cap := p.marketCapitalization.map (fun m => m * 1e9)
        let prevClose := d.pc.getD 0
        let change := d.d.getD (c - prevClose)
        let changePercent :=
          d.dp.getD (if prevClose = 0 then 0 else change / prevClose * 100)
        .ok (some
          { symbol := symbol
            price := some c
            change := some change
            changePercent := some changePercent
            marketCap := cap.map some
            volume := d.v.map some
            lastUpdated := env.nowIso })

/-- Serverless `alphaVantageQuote`.  `jNet` is the GLOBAL_QUOTE
`fetch`+`json` (a rejection propagates); `oNet` is the OVERVIEW call,
fully wrapped in `.catch(() => ({}))`.  Note: only `j?.Note` is
checked (not `Information`), there is no empty-object check on
`"Global Quote"`, and the mandatory-field check is `== null`, which NaN
passes. -/
def alphaVantageQuote (jNet : Except Unit AVResp) (oNet : Except Unit Overview)
    (env : Env) (symbol : String) : Except Unit (Option StockData) :=
  match jNet with
  | .error e => .error e
  | .ok j =>
    if truthyS j.note then .ok none
    else
      match j.globalQuote with
      | none => .ok none
      | some g =>
        let price := num g.price05
        let change := num g.change09
        let changePercent := num g.changePercent10
        let volume := num g.volume06
        if price.isNone ∨ change.isNone ∨ changePercent.isNone then .ok none
        else
          let o := jsCatch oNet ⟨none, none⟩
          let cap : Option JsNum :=
            if truthyS o.note then none else num o.marketCapitalization
          .ok (some
            { symbol := symbol
              price := price.getD none
              change := change.getD none
              changePercent := changePercent.getD none
              marketCap := cap
              volume := volume
              lastUpdated := lastUpd env g.latestDay07 })

/-- The per-symbol network oracles of one `handler` invocation. -/
structure ServerNet where
  finnQuote : String → Except Unit (Option FinnQuote)
  finnProfile : String → Except Unit (Except Unit FinnProfile)
  avQuote : String → Except Unit AVResp
  avOverview : String → Except Unit Overview

/-- Finnhub-stage diagnostic. -/
def finnMsg : String := "Finnhub unavailable."

/-- Alpha-Vantage-stage diagnostic. -/
def avMsg : String := "Alpha Vantage unavailable."

/-- Serverless `fromFinnhub`: one adapter call per symbol, each wrapped
in `.catch(() => null)`; keep the non-null rows.  No error is reported
as long as at least one row succeeded. -/
def fromFinnhub (env : Env) (net : ServerNet) (symbols : List String) : StockApiResponse :=
  let out := symbols.filterMap
    (fun s => jsCatch (finnhubQuote (net.finnQuote s) (net.finnProfile s) env s) none)
  if out.isEmpty then { stocks := [], error := some finnMsg }
  else { stocks := out, error := none }

/-- Serverless `fromAV`: same shape over `alphaVantageQuote`. -/
def fromAV (env : Env) (net : ServerNet) (symbols : List String) : StockApiResponse :=
  let out := symbols.filterMap
    (fun s => jsCatch (alphaVantageQuote (net.avQuote s) (net.avOverview s) env s) none)
  if out.isEmpty then { stocks := [], error := some avMsg }
  else { stocks := out, error := none }

/-- Serverless `handler`: Finnhub first when its key is present, then
Alpha Vantage, then full mock.  `query` is the parsed `symbols` query
parameter (`none` when absent or when `safeParse` failed). -/
def handler (env : Env) (net : ServerNet) (finnKey avKey : Bool)
    (query : Option String) : StockApiResponse :=
  let symbols := uniqueSymbols query
  if finnKey then
    let r1 := fromFinnhub env net symbols
    let r2 := if r1.stocks.isEmpty && avKey then fromAV env net symbols else r1
    if r2.stocks.isEmpty then mockData env symbols else r2
  else if avKey then
    let r := fromAV env net symbols
    if r.stocks.isEmpty then mockData env symbols else r
  else mockData env symbols

end Server

/-! ### Concrete instantiation data

Closed environments and network behaviours used below to evaluate the
model at concrete inputs. -/

/-- A concrete environment: epoch instant 0, `Math.sin` constantly 0. -/
def env0 : Env where
  nowMs := 0
  nowIso := "1970-01-01T00:00:00.000Z"
  dateParseOk := fun _ => false
  isoClose := fun _ => ""
  msin := fun _ => 0
  msin_bound := by intro z; norm_num

/-- A second environment 30 s later (same minute bucket as `env0plus`). -/
def env1 : Env where
  nowMs := 30000
  nowIso := "1970-01-01T00:00:30.000Z"
  dateParseOk := fun _ => false
  isoClose := fun _ => ""
  msin := fun _ => 0
  msin_bound := by intro z; norm_num

/-- A third environment at 59 s: same minute bucket as `env1`. -/
def env2 : Env where
  nowMs := 59000
  nowIso := "1970-01-01T00:00:59.000Z"
  dateParseOk := fun _ => false
  isoClose := fun _ => ""
  msin := fun _ => 0
  msin_bound := by intro z; norm_num

/-- A client network on which every call throws. -/
def netErrC : String → Except Unit AVResp := fun _ => Except.error ()

/-- A serverless network on which every call throws. -/
def netErrS : Server.ServerNet where
  finnQuote := fun _ => Except.error ()
  finnProfile := fun _ => Except.error ()
  avQuote := fun _ => Except.error ()
  avOverview := fun _ => Except.error ()

/-- A Finnhub quote payload with usable data. -/
def finnRowA : Server.FinnQuote where
  c := some 100
  pc := some 90
  d := some 1
  dp := some 2
  v := some 5000

/-- A serverless network where Finnhub answers for AAPL only and every
other call yields nothing (profile fetches succeed, their json throws
and is caught). -/
def net1 : Server.ServerNet where
  finnQuote := fun s => if s = "AAPL" then Except.ok (some finnRowA) else Except.ok none
  finnProfile := fun _ => Except.ok (Except.error ())
  avQuote := fun _ => Except.error ()
  avOverview := fun _ => Except.error ()

/-- The query string requesting AAPL and MSFT. -/
def q2 : String := "AAPL,MSFT"

/-- A query string that normalises to the empty symbol list. -/
def qws : String := " , "

/-- A GLOBAL_QUOTE object whose price field is unparseable. -/
def gBad : GlobalQuote where
  sym01 := none
  price05 := some "abc"
  volume06 := none
  latestDay07 := none
  change09 := some "1"
  changePercent10 := some "2%"
  noKeys := false

/-- The GLOBAL_QUOTE response carrying `gBad`, with no rate-limit note. -/
def jBad : AVResp where
  globalQuote := some gBad
  note := none
  information := none

/-- A well-formed GLOBAL_QUOTE object for IBM. -/
def gGood : GlobalQuote where
  sym01 := some "IBM"
  price05 := some "10"
  volume06 := none
  latestDay07 := none
  change09 := some "1"
  changePercent10 := some "1%"
  noKeys := false

/-- The response carrying `gGood`. -/
def jGood : AVResp where
  globalQuote := some gGood
  note := none
  information := none

/-- A client network answering `jGood` on every symbol. -/
def netGood : String → Except Unit AVResp := fun _ => Except.ok jGood

/-- Example inputs for the numeric-normalizer claim. -/
def s1 : String := "1,234.56"

/-- Percent-string example input. -/
def s2 : String := "2.3%"

/-- Unparseable example input. -/
def s3 : String := "abc"

/-- A one-element lower-case request list. -/
def inAapl : List String := ["aapl"]

/-- A request list that normalises to the empty symbol list. -/
def inWs : List String := [" "]

/-- The AAPL ticker as a named constant. -/
def symA : String := "AAPL"

/-! ## Lemmas -/

/-! ### Characters, trimming, normalisation -/

theorem toNat_ofNat_valid {n : ℕ} (h : n < 55296) : (Char.ofNat n).toNat = n := by
  have hv : n.isValidChar := Or.inl h
  rw [Char.ofNat, dif_pos hv]
  rfl

theorem upChar_idem (c : Char) : upChar (upChar c) = upChar c := by
  by_cases h : 97 ≤ c.toNat ∧ c.toNat ≤ 122
  · have h1 : upChar c = Char.ofNat (c.toNat - 32) := if_pos h
    have ht : (Char.ofNat (c.toNat - 32)).toNat = c.toNat - 32 := toNat_ofNat_valid (by omega)
    rw [h1]
    show (if _ ≤ _ ∧ _ ≤ _ then _ else _) = _
    rw [if_neg (by rw [ht]; omega)]
  · have h1 : upChar c = c := if_neg h
    rw [h1, h1]

theorem isWs_upChar (c : Char) : isWsB (upChar c) = isWsB c := by
  by_cases h : 97 ≤ c.toNat ∧ c.toNat ≤ 122
  · have h1 : upChar c = Char.ofNat (c.toNat - 32) := if_pos h
    have ht : (Char.ofNat (c.toNat - 32)).toNat = c.toNat - 32 := toNat_ofNat_valid (by omega)
    rw [h1]
    unfold isWsB
    rw [ht, decide_eq_decide]
    omega
  · rw [show upChar c = c from if_neg h]

theorem dropWhile_append_one {p : Char → Bool} {c : Char} (h : p c = false) (xs : List Char) :
    List.dropWhile p (xs ++ [c]) = List.dropWhile p xs ++ [c] := by
  induction xs with
  | nil => simp [List.dropWhile, h]
  | cons x xs ih =>
    by_cases hx : p x
    · simp [List.dropWhile_cons, hx, ih]
    · simp [List.dropWhile_cons, hx]

theorem backTrim_backTrim (l : List Char) : backTrim (backTrim l) = backTrim l := by
  unfold backTrim
  rw [List.reverse_reverse, List.dropWhile_idempotent]

theorem dropWhile_backTrim {l : List Char} (h : List.dropWhile isWsB l = l) :
    List.dropWhile isWsB (backTrim l) = backTrim l := by
  cases l with
  | nil => rfl
  | cons c cs =>
    have hc : isWsB c = false := by
      by_contra hcc
      have hct : isWsB c = true := by
        cases hb : isWsB c
        · exact absurd hb hcc
        · rfl
      rw [List.dropWhile_cons, if_pos hct] at h
      have hlen := congrArg List.length h
      have hle : (List.dropWhile isWsB cs).length ≤ cs.length :=
        (List.dropWhile_sublist _).length_le
      simp at hlen
      omega
    unfold backTrim
    rw [List.reverse_cons, dropWhile_append_one hc]
    simp only [List.reverse_append, List.reverse_cons, List.reverse_nil, List.nil_append,
      List.singleton_append]
    rw [List.dropWhile_cons, if_neg (by simp [hc])]

theorem trimChars_idem (l : List Char) : trimChars (trimChars l) = trimChars l := by
  unfold trimChars
  rw [dropWhile_backTrim (List.dropWhile_idempotent _ _), backTrim_backTrim]

theorem dropWhile_map_upChar (l : List Char) :
    List.dropWhile isWsB (l.map upChar) = (List.dropWhile isWsB l).map upChar := by
  have hpf : (isWsB ∘ upChar) = isWsB := funext isWs_upChar
  rw [List.dropWhile_map, hpf]

theorem backTrim_map_upChar (l : List Char) :
    backTrim (l.map upChar) = (backTrim l).map upChar := by
  unfold backTrim
  rw [← List.map_reverse, dropWhile_map_upChar, List.map_reverse]

theorem trimChars_map_upChar (l : List Char) :
    trimChars (l.map upChar) = (trimChars l).map upChar := by
  unfold trimChars
  rw [dropWhile_map_upChar, backTrim_map_upChar]

theorem map_upChar_idem (l : List Char) : (l.map upChar).map upChar = l.map upChar := by
  rw [List.map_map]
  congr 1
  funext c
  exact upChar_idem c

theorem jsNorm_idem (s : String) : jsNorm (jsNorm s) = jsNorm s := by
  have key : ∀ l : List Char,
      List.map upChar (trimChars (List.map upChar (trimChars l))) =
        List.map upChar (trimChars l) := by
    intro l
    rw [trimChars_map_upChar, trimChars_idem, map_upChar_idem]
  exact congrArg String.mk (key s.data)

/-! ### De-duplication and the symbol normalisation -/

theorem mem_dedupAux {a : String} : ∀ {l seen : List String},
    a ∈ dedupAux seen l ↔ a ∈ l ∧ a ∉ seen := by
  intro l
  induction l with
  | nil => intro seen; simp [dedupAux]
  | cons x xs ih =>
    intro seen
    unfold dedupAux
    by_cases hx : x ∈ seen
    · rw [if_pos hx, ih]
      constructor
      · rintro ⟨h1, h2⟩
        exact ⟨List.mem_cons_of_mem _ h1, h2⟩
      · rintro ⟨h1, h2⟩
        rcases List.mem_cons.mp h1 with rfl | h1
        · exact absurd hx h2
        · exact ⟨h1, h2⟩
    · rw [if_neg hx]
      constructor
      · intro hmem
        rcases List.mem_cons.mp hmem with rfl | hmem2
        · exact ⟨List.mem_cons_self a xs, hx⟩
        · obtain ⟨h1, h2⟩ := ih.mp hmem2
          exact ⟨List.mem_cons_of_mem _ h1, fun hs => h2 (List.mem_cons_of_mem _ hs)⟩
      · rintro ⟨h1, h2⟩
        rcases List.mem_cons.mp h1 with rfl | h3
        · exact List.mem_cons_self a _
        · by_cases hax : a = x
          · rw [hax]; exact List.mem_cons_self x _
          · refine List.mem_cons_of_mem _ (ih.mpr ⟨h3, fun hmem => ?_⟩)
            rcases List.mem_cons.mp hmem with h4 | h4
            · exact hax h4
            · exact h2 h4

theorem nodup_dedupAux : ∀ {l seen : List String}, (dedupAux seen l).Nodup := by
  intro l
  induction l with
  | nil => intro seen; simp [dedupAux]
  | cons x xs ih =>
    intro seen
    unfold dedupAux
    by_cases hx : x ∈ seen
    · rw [if_pos hx]; exact ih
    · rw [if_neg hx]
      rw [List.nodup_cons]
      refine ⟨fun hmem => ?_, ih⟩
      rw [mem_dedupAux] at hmem
      exact hmem.2 (List.mem_cons_self x seen)

theorem dedupAux_eq_self : ∀ {l seen : List String},
    l.Nodup → (∀ a ∈ l, a ∉ seen) → dedupAux seen l = l := by
  intro l
  induction l with
  | nil => intro seen _ _; rfl
  | cons x xs ih =>
    intro seen hnd hdis
    unfold dedupAux
    rw [if_neg (hdis x (List.mem_cons_self x xs))]
    congr 1
    refine ih (List.Nodup.of_cons hnd) (fun a ha hmem => ?_)
    rcases List.mem_cons.mp hmem with rfl | hs
    · exact (List.nodup_cons.mp hnd).1 ha
    · exact hdis a (List.mem_cons_of_mem _ ha) hs

theorem mem_dedup {a : String} {l : List String} : a ∈ dedup l ↔ a ∈ l := by
  unfold dedup
  rw [mem_dedupAux]
  simp

theorem nodup_dedup (l : List String) : (dedup l).Nodup :=
  nodup_dedupAux

theorem dedup_eq_self {l : List String} (h : l.Nodup) : dedup l = l :=
  dedupAux_eq_self h (by simp)

theorem normalize_nodup (l : List String) : (Client.normalize l).Nodup :=
  nodup_dedup _

theorem mem_normalize_fixed {s : String} {l : List String}
    (h : s ∈ Client.normalize l) : jsNorm s = s ∧ s ≠ "" := by
  unfold Client.normalize at h
  rw [mem_dedup, List.mem_filter] at h
  obtain ⟨h1, h2⟩ := h
  rw [List.mem_map] at h1
  obtain ⟨x, _, rfl⟩ := h1
  refine ⟨jsNorm_idem x, ?_⟩
  simpa using h2

theorem normalize_fixed {m : List String}
    (hfix : ∀ s ∈ m, jsNorm s = s ∧ s ≠ "") (hnd : m.Nodup) :
    Client.normalize m = m := by
  unfold Client.normalize
  have h1 : m.map jsNorm = m := by
    conv_rhs => rw [← List.map_id m]
    exact List.map_congr_left (fun s hs => (hfix s hs).1)
  rw [h1]
  have h2 : m.filter (fun s => decide (s ≠ "")) = m := by
    rw [List.filter_eq_self]
    intro s hs
    simpa using (hfix s hs).2
  rw [h2]
  exact dedup_eq_self hnd

theorem normalize_normalize (l : List String) :
    Client.normalize (Client.normalize l) = Client.normalize l :=
  normalize_fixed (fun _ hs => mem_normalize_fixed hs) (normalize_nodup l)

/-! ### Indexed map, mock lists, filterMap, the merge map -/

theorem length_mapWithIndexAux (f : ℕ → α → β) :
    ∀ (i : ℕ) (l : List α), (mapWithIndexAux f i l).length = l.length := by
  intro i l
  induction l generalizing i with
  | nil => rfl
  | cons a as ih => simp [mapWithIndexAux, ih]

theorem length_mapWithIndex (f : ℕ → α → β) (l : List α) :
    (mapWithIndex f l).length = l.length :=
  length_mapWithIndexAux f 0 l

theorem map_mapWithIndexAux (f : ℕ → α → β) (g : β → α)
    (hf : ∀ i a, g (f i a) = a) :
    ∀ (i : ℕ) (l : List α), (mapWithIndexAux f i l).map g = l := by
  intro i l
  induction l generalizing i with
  | nil => rfl
  | cons a as ih => simp [mapWithIndexAux, hf, ih]

theorem map_mapWithIndex (f : ℕ → α → β) (g : β → α)
    (hf : ∀ i a, g (f i a) = a) (l : List α) :
    (mapWithIndex f l).map g = l :=
  map_mapWithIndexAux f g hf 0 l

theorem mem_mapWithIndexAux {f : ℕ → α → β} {b : β} :
    ∀ {i : ℕ} {l : List α}, b ∈ mapWithIndexAux f i l → ∃ j a, a ∈ l ∧ b = f j a := by
  intro i l
  induction l generalizing i with
  | nil => intro h; simp [mapWithIndexAux] at h
  | cons a as ih =>
    intro h
    rcases List.mem_cons.mp h with h1 | h1
    · exact ⟨i, a, List.mem_cons_self a as, h1⟩
    · obtain ⟨j, x, hx, hb⟩ := ih h1
      exact ⟨j, x, List.mem_cons_of_mem _ hx, hb⟩

theorem mem_mapWithIndex {f : ℕ → α → β} {b : β} {l : List α}
    (h : b ∈ mapWithIndex f l) : ∃ j a, a ∈ l ∧ b = f j a :=
  mem_mapWithIndexAux h

theorem makeMockRow_symbol (env : Env) (s : String) (i : ℕ) :
    (Client.makeMockRow env s i).symbol = s := rfl

theorem mockRow_symbol (env : Env) (i : ℕ) (s : String) :
    (Server.mockRow env i s).symbol = s := rfl

theorem buildMock_of_fixed {m : List String} (env : Env)
    (hfix : ∀ s ∈ m, jsNorm s = s ∧ s ≠ "") (hnd : m.Nodup) (hne : m ≠ []) :
    Client.buildMock env m = mapWithIndex (fun i s => Client.makeMockRow env s i) m := by
  unfold Client.buildMock
  rw [normalize_fixed hfix hnd]
  have hempty : m.isEmpty = false := by
    cases m with
    | nil => exact absurd rfl hne
    | cons a as => rfl
  simp [hempty]

theorem map_symbol_buildMock {m : List String} (env : Env)
    (hfix : ∀ s ∈ m, jsNorm s = s ∧ s ≠ "") (hnd : m.Nodup) (hne : m ≠ []) :
    (Client.buildMock env m).map StockData.symbol = m := by
  rw [buildMock_of_fixed env hfix hnd hne]
  exact map_mapWithIndex _ _ (fun i a => rfl) m

theorem buildMock_nil (env : Env) :
    Client.buildMock env [] =
      mapWithIndex (fun i s => Client.makeMockRow env s i) defaultSymbols := rfl

theorem filterMap_map_symbol {l : List String} {f : String → Option StockData}
    (h : ∀ a ∈ l, ∃ r, f a = some r ∧ r.symbol = a) :
    (l.filterMap f).map StockData.symbol = l := by
  induction l with
  | nil => rfl
  | cons x xs ih =>
    obtain ⟨r, hr, hs⟩ := h x (List.mem_cons_self _ _)
    rw [List.filterMap_cons_some hr, List.map_cons, hs,
      ih (fun a ha => h a (List.mem_cons_of_mem _ ha))]

theorem filterMap_symbol_sublist {l : List String} {f : String → Option StockData}
    (h : ∀ a r, f a = some r → r.symbol = a) :
    List.Sublist ((l.filterMap f).map StockData.symbol) l := by
  induction l with
  | nil => simp
  | cons x xs ih =>
    cases hfx : f x with
    | none =>
      rw [List.filterMap_cons_none hfx]
      exact List.Sublist.cons x ih
    | some r =>
      rw [List.filterMap_cons_some hfx, List.map_cons, h x r hfx]
      exact List.Sublist.cons₂ x ih

theorem lookupLast_eq_some : ∀ {l : List StockData} {k : String} {r : StockData},
    lookupLast l k = some r → r ∈ l ∧ r.symbol = k := by
  intro l
  induction l with
  | nil => intro k r h; exact Option.noConfusion h
  | cons x xs ih =>
    intro k r h
    unfold lookupLast at h
    cases hx : lookupLast xs k with
    | some y =>
      rw [hx] at h
      cases h
      obtain ⟨h1, h2⟩ := ih hx
      exact ⟨List.mem_cons_of_mem _ h1, h2⟩
    | none =>
      rw [hx] at h
      by_cases hs : x.symbol = k
      · rw [if_pos hs] at h
        cases h
        exact ⟨List.mem_cons_self _ _, hs⟩
      · rw [if_neg hs] at h
        exact Option.noConfusion h

theorem lookupLast_isSome : ∀ {l : List StockData} {k : String},
    (∃ r ∈ l, r.symbol = k) → ∃ r, lookupLast l k = some r := by
  intro l
  induction l with
  | nil => intro k h; simp at h
  | cons x xs ih =>
    intro k h
    unfold lookupLast
    cases hx : lookupLast xs k with
    | some y => exact ⟨y, rfl⟩
    | none =>
      obtain ⟨r, hr, hs⟩ := h
      rcases List.mem_cons.mp hr with rfl | hr2
      · rw [if_pos hs]
        exact ⟨r, rfl⟩
      · obtain ⟨y, hy⟩ := ih ⟨r, hr2, hs⟩
        rw [hx] at hy
        exact Option.noConfusion hy

/-! ### Bounds on the pseudo-random fractions -/

theorem jitter_bounds (env : Env) (seed : ℕ) :
    0 ≤ Client.jitter env seed ∧ Client.jitter env seed < 1 := by
  unfold Client.jitter
  constructor
  · have := Int.fract_nonneg (α := ℚ)
      (env.msin ((seed : ℤ) * 997 + (minuteBucket env : ℤ)) * 10000)
    rwa [Int.fract] at this
  · have := Int.fract_lt_one (α := ℚ)
      (env.msin ((seed : ℤ) * 997 + (minuteBucket env : ℤ)) * 10000)
    rwa [Int.fract] at this

theorem mockR_bounds (env : Env) (i : ℕ) :
    0 ≤ Server.mockR env i ∧ Server.mockR env i ≤ 1 := by
  unfold Server.mockR
  obtain ⟨h1, h2⟩ := env.msin_bound ((i : ℤ) * 997 + (minuteBucket env : ℤ))
  constructor <;> nlinarith

/-! ### Client `fetchStocks` structure -/

theorem fetchStocks_false (env : Env) (net : String → Except Unit AVResp)
    (input : List String) :
    Client.fetchStocks env false net input =
      { stocks := Client.buildMock env (Client.normalize input)
        error := some Client.noKeyMsg } := rfl

theorem fetchStocks_map_symbol (env : Env) (k : Bool) (net : String → Except Unit AVResp)
    (input : List String) (hne : Client.normalize input ≠ [])
    (hecho : ∀ s r, Client.fetchQuote (net s) env s = some r → r.symbol = s) :
    (Client.fetchStocks env k net input).stocks.map StockData.symbol =
      Client.normalize input := by
  have hfix : ∀ s ∈ Client.normalize input, jsNorm s = s ∧ s ≠ "" :=
    fun s hs => mem_normalize_fixed hs
  have hnd := normalize_nodup input
  cases k with
  | false =>
    rw [fetchStocks_false]
    exact map_symbol_buildMock env hfix hnd hne
  | true =>
    set symbols := Client.normalize input with hsymdef
    set rows := symbols.filterMap (fun s => Client.fetchQuote (net s) env s) with hrowsdef
    set failed := symbols.filter (fun s => (Client.fetchQuote (net s) env s).isNone)
      with hfaileddef
    have hstep : Client.fetchStocks env true net input =
        (if rows.isEmpty then
          { stocks := Client.buildMock env symbols, error := some Client.limitMsg }
        else if !failed.isEmpty then
          { stocks := symbols.filterMap
              (fun s => lookupLast (rows ++ Client.buildMock env failed) s)
            error := some Client.partialMsg }
        else { stocks := rows, error := none }) := rfl
    rw [hstep]
    by_cases hrows : rows.isEmpty
    · rw [if_pos hrows]
      exact map_symbol_buildMock env hfix hnd hne
    · rw [if_neg hrows]
      by_cases hfailed : failed.isEmpty
      · rw [if_neg (by simp [hfailed])]
        have hfnil : failed = [] := by
          cases hf : failed with
          | nil => rfl
          | cons a as => rw [hf] at hfailed; simp at hfailed
        have hallsome : ∀ s ∈ symbols, ∃ r,
            Client.fetchQuote (net s) env s = some r ∧ r.symbol = s := by
          intro s hs
          have hnotin : s ∉ failed := by rw [hfnil]; simp
          rw [hfaileddef] at hnotin
          cases hq : Client.fetchQuote (net s) env s with
          | none =>
            exfalso
            exact hnotin (List.mem_filter.mpr ⟨hs, by simp [hq]⟩)
          | some r => exact ⟨r, rfl, hecho s r hq⟩
        exact filterMap_map_symbol hallsome
      · rw [if_pos (by simp [hfailed])]
        have hfne : failed ≠ [] := by
          intro hcon
          rw [hcon] at hfailed
          exact hfailed rfl
        have hffix : ∀ s ∈ failed, jsNorm s = s ∧ s ≠ "" := by
          intro s hs
          exact hfix s (List.mem_filter.mp hs).1
        have hfnd : failed.Nodup := List.Nodup.filter _ hnd
        have hmocks : (Client.buildMock env failed).map StockData.symbol = failed :=
          map_symbol_buildMock env hffix hfnd hfne
        refine filterMap_map_symbol (fun s hs => ?_)
        cases hq : Client.fetchQuote (net s) env s with
        | some r =>
          have hrmem : r ∈ rows := by
            rw [hrowsdef]
            exact List.mem_filterMap.mpr ⟨s, hs, hq⟩
          obtain ⟨y, hy⟩ := lookupLast_isSome
            ⟨r, List.mem_append_left _ hrmem, hecho s r hq⟩
          exact ⟨y, hy, (lookupLast_eq_some hy).2⟩
        | none =>
          have hsfail : s ∈ failed := List.mem_filter.mpr ⟨hs, by simp [hq]⟩
          have : s ∈ (Client.buildMock env failed).map StockData.symbol := by
            rw [hmocks]; exact hsfail
          obtain ⟨m, hm, hms⟩ := List.mem_map.mp this
          obtain ⟨y, hy⟩ := lookupLast_isSome ⟨m, List.mem_append_right _ hm, hms⟩
          exact ⟨y, hy, (lookupLast_eq_some hy).2⟩

/-! ### Serverless adapter and handler structure -/

theorem finnhubQuote_symbol {qn : Except Unit (Option Server.FinnQuote)}
    {pn : Except Unit (Except Unit Server.FinnProfile)} {env : Env} {s : String}
    {r : StockData} (h : Server.finnhubQuote qn pn env s = Except.ok (some r)) :
    r.symbol = s := by
  unfold Server.finnhubQuote at h
  split at h
  · exact Except.noConfusion h
  · exact Option.noConfusion (Except.ok.inj h)
  · split at h
    · exact Option.noConfusion (Except.ok.inj h)
    · split at h
      · exact Except.noConfusion h
      · exact (Option.some.inj (Except.ok.inj h)) ▸ rfl

theorem avQuote_symbol {jn : Except Unit AVResp} {onet : Except Unit Overview}
    {env : Env} {s : String} {r : StockData}
    (h : Server.alphaVantageQuote jn onet env s = Except.ok (some r)) :
    r.symbol = s := by
  unfold Server.alphaVantageQuote at h
  split at h
  · exact Except.noConfusion h
  · split at h
    · exact Option.noConfusion (Except.ok.inj h)
    · split at h
      · exact Option.noConfusion (Except.ok.inj h)
      · dsimp only at h
        split at h
        · exact Option.noConfusion (Except.ok.inj h)
        · exact (Option.some.inj (Except.ok.inj h)) ▸ rfl

theorem jsCatch_some {e : Except Unit (Option StockData)} {r : StockData}
    (h : jsCatch e none = some r) : e = Except.ok (some r) := by
  cases e with
  | error u => exact Option.noConfusion h
  | ok v => exact congrArg Except.ok h

theorem mockData_map_symbol (env : Env) (symbols : List String) :
    ((Server.mockData env symbols).stocks).map StockData.symbol = symbols :=
  map_mapWithIndex _ _ (fun _ _ => rfl) symbols

theorem fromFinnhub_symbol_sublist (env : Env) (net : Server.ServerNet)
    (symbols : List String) :
    List.Sublist (((Server.fromFinnhub env net symbols).stocks).map StockData.symbol)
      symbols := by
  unfold Server.fromFinnhub
  dsimp only
  split
  · simp
  · exact filterMap_symbol_sublist (fun a r hr => finnhubQuote_symbol (jsCatch_some hr))

theorem fromAV_symbol_sublist (env : Env) (net : Server.ServerNet)
    (symbols : List String) :
    List.Sublist (((Server.fromAV env net symbols).stocks).map StockData.symbol)
      symbols := by
  unfold Server.fromAV
  dsimp only
  split
  · simp
  · exact filterMap_symbol_sublist (fun a r hr => avQuote_symbol (jsCatch_some hr))

theorem handler_symbol_sublist (env : Env) (net : Server.ServerNet) (fk ak : Bool)
    (q : Option String) :
    List.Sublist (((Server.handler env net fk ak q).stocks).map StockData.symbol)
      (Server.uniqueSymbols q) := by
  unfold Server.handler
  dsimp only
  by_cases hfk : fk = true
  · rw [if_pos hfk]
    split
    · split
      · rw [mockData_map_symbol]
      · exact fromAV_symbol_sublist env net _
    · split
      · rw [mockData_map_symbol]
      · exact fromFinnhub_symbol_sublist env net _
  · rw [if_neg hfk]
    by_cases hak : ak = true
    · rw [if_pos hak]
      split
      · rw [mockData_map_symbol]
      · exact fromAV_symbol_sublist env net _
    · rw [if_neg hak]
      rw [mockData_map_symbol]

theorem fromFinnhub_error_of_rows (env : Env) (net : Server.ServerNet)
    (symbols : List String)
    (h : (Server.fromFinnhub env net symbols).stocks.isEmpty = false) :
    (Server.fromFinnhub env net symbols).error = none := by
  unfold Server.fromFinnhub at h ⊢
  dsimp only at h ⊢
  split at h
  · simp at h
  · split
    · simp_all
    · rfl

theorem fromAV_error_of_rows (env : Env) (net : Server.ServerNet)
    (symbols : List String)
    (h : (Server.fromAV env net symbols).stocks.isEmpty = false) :
    (Server.fromAV env net symbols).error = none := by
  unfold Server.fromAV at h ⊢
  dsimp only at h ⊢
  split at h
  · simp at h
  · split
    · simp_all
    · rfl

theorem fromFinnhub_all_none (env : Env) (net : Server.ServerNet) (symbols : List String)
    (h : ∀ s ∈ symbols,
      jsCatch (Server.finnhubQuote (net.finnQuote s) (net.finnProfile s) env s) none = none) :
    Server.fromFinnhub env net symbols = { stocks := [], error := some Server.finnMsg } := by
  unfold Server.fromFinnhub
  dsimp only
  rw [List.filterMap_eq_nil_iff.mpr h]
  rfl

theorem fromAV_all_none (env : Env) (net : Server.ServerNet) (symbols : List String)
    (h : ∀ s ∈ symbols,
      jsCatch (Server.alphaVantageQuote (net.avQuote s) (net.avOverview s) env s) none = none) :
    Server.fromAV env net symbols = { stocks := [], error := some Server.avMsg } := by
  unfold Server.fromAV
  dsimp only
  rw [List.filterMap_eq_nil_iff.mpr h]
  rfl

theorem handler_all_mock (env : Env) (net : Server.ServerNet) (fk ak : Bool)
    (q : Option String)
    (hF : ∀ s ∈ Server.uniqueSymbols q,
      jsCatch (Server.finnhubQuote (net.finnQuote s) (net.finnProfile s) env s) none = none)
    (hA : ∀ s ∈ Server.uniqueSymbols q,
      jsCatch (Server.alphaVantageQuote (net.avQuote s) (net.avOverview s) env s) none = none) :
    Server.handler env net fk ak q = Server.mockData env (Server.uniqueSymbols q) := by
  unfold Server.handler
  dsimp only
  rw [fromFinnhub_all_none env net _ hF, fromAV_all_none env net _ hA]
  cases fk <;> cases ak <;> simp

theorem final_step_iff (env : Env) (q : Option String) (r : StockApiResponse)
    (hr : r.stocks.isEmpty = false → r.error = none) :
    (if r.stocks.isEmpty then Server.mockData env (Server.uniqueSymbols q) else r).error ≠ none ↔
      (if r.stocks.isEmpty then Server.mockData env (Server.uniqueSymbols q) else r) =
        Server.mockData env (Server.uniqueSymbols q) := by
  by_cases h : r.stocks.isEmpty = true
  · rw [if_pos h]
    constructor
    · intro _; rfl
    · intro _ hcon
      exact Option.noConfusion hcon
  · rw [if_neg h]
    have he : r.error = none := by
      apply hr
      cases hemp : r.stocks.isEmpty with
      | false => rfl
      | true => exact absurd hemp h
    constructor
    · intro hc
      exact absurd he hc
    · intro hmock
      exfalso
      have hsome : r.error = some Server.mockMsg := by rw [hmock]; rfl
      rw [he] at hsome
      exact Option.noConfusion hsome

theorem handler_error_iff_mock (env : Env) (net : Server.ServerNet) (fk ak : Bool)
    (q : Option String) :
    (Server.handler env net fk ak q).error ≠ none ↔
      Server.handler env net fk ak q = Server.mockData env (Server.uniqueSymbols q) := by
  unfold Server.handler
  dsimp only
  by_cases hfk : fk = true
  · rw [if_pos hfk]
    split
    · exact final_step_iff env q _ (fun hne => fromAV_error_of_rows env net _ hne)
    · exact final_step_iff env q _ (fun hne => fromFinnhub_error_of_rows env net _ hne)
  · rw [if_neg hfk]
    by_cases hak : ak = true
    · rw [if_pos hak]
      exact final_step_iff env q _ (fun hne => fromAV_error_of_rows env net _ hne)
    · rw [if_neg hak]
      constructor
      · intro _; rfl
      · intro _ hcon
        exact Option.noConfusion hcon

theorem fetchStocks_all_none (env : Env) (net : String → Except Unit AVResp)
    (input : List String)
    (h : ∀ s ∈ Client.normalize input, Client.fetchQuote (net s) env s = none) :
    Client.fetchStocks env true net input =
      { stocks := Client.buildMock env (Client.normalize input)
        error := some Client.limitMsg } := by
  have hstep : Client.fetchStocks env true net input =
      (if ((Client.normalize input).filterMap
            (fun s => Client.fetchQuote (net s) env s)).isEmpty then
        { stocks := Client.buildMock env (Client.normalize input)
          error := some Client.limitMsg }
      else if !((Client.normalize input).filter
            (fun s => (Client.fetchQuote (net s) env s).isNone)).isEmpty then
        { stocks := (Client.normalize input).filterMap
            (fun s => lookupLast (((Client.normalize input).filterMap
              (fun s => Client.fetchQuote (net s) env s)) ++
                Client.buildMock env ((Client.normalize input).filter
                  (fun s => (Client.fetchQuote (net s) env s).isNone))) s)
          error := some Client.partialMsg }
      else { stocks := (Client.normalize input).filterMap
              (fun s => Client.fetchQuote (net s) env s)
             error := none }) := rfl
  rw [hstep, List.filterMap_eq_nil_iff.mpr h]
  rfl

theorem fetchStocks_error_iff (env : Env) (k : Bool)
    (net : String → Except Unit AVResp) (input : List String)
    (hne : Client.normalize input ≠ []) :
    (Client.fetchStocks env k net input).error ≠ none ↔
      (k = false ∨ ∃ s ∈ Client.normalize input,
        Client.fetchQuote (net s) env s = none) := by
  cases k with
  | false =>
    rw [fetchStocks_false]
    constructor
    · intro _
      exact Or.inl rfl
    · intro _ hcon
      exact Option.noConfusion hcon
  | true =>
    set symbols := Client.normalize input with hsymdef
    set rows := symbols.filterMap (fun s => Client.fetchQuote (net s) env s) with hrowsdef
    set failed := symbols.filter (fun s => (Client.fetchQuote (net s) env s).isNone)
      with hfaileddef
    have hstep : Client.fetchStocks env true net input =
        (if rows.isEmpty then
          { stocks := Client.buildMock env symbols, error := some Client.limitMsg }
        else if !failed.isEmpty then
          { stocks := symbols.filterMap
              (fun s => lookupLast (rows ++ Client.buildMock env failed) s)
            error := some Client.partialMsg }
        else { stocks := rows, error := none }) := rfl
    rw [hstep]
    have hfailed_iff : (∃ s ∈ symbols, Client.fetchQuote (net s) env s = none) ↔
        failed ≠ [] := by
      constructor
      · rintro ⟨s, hs, hq⟩ hcon
        have : s ∈ failed := List.mem_filter.mpr ⟨hs, by simp [hq]⟩
        rw [hcon] at this
        simp at this
      · intro hfne
        obtain ⟨s, hs⟩ := List.exists_mem_of_ne_nil failed hfne
        have h1 := List.mem_filter.mp hs
        refine ⟨s, h1.1, ?_⟩
        have := h1.2
        simp only [Option.isNone_iff_eq_none, decide_eq_true_eq] at this
        exact this
    by_cases hrows : rows.isEmpty
    · rw [if_pos hrows]
      constructor
      · intro _
        refine Or.inr ?_
        have hallnone : ∀ a ∈ symbols, Client.fetchQuote (net a) env a = none := by
          have : rows = [] := by
            cases hr : rows with
            | nil => rfl
            | cons a as => rw [hr] at hrows; simp at hrows
          rw [hrowsdef] at this
          exact List.filterMap_eq_nil_iff.mp this
        obtain ⟨s, hs⟩ := List.exists_mem_of_ne_nil symbols hne
        exact ⟨s, hs, hallnone s hs⟩
      · intro _ hcon
        exact Option.noConfusion hcon
    · rw [if_neg hrows]
      by_cases hfailed : failed.isEmpty
      · rw [if_neg (by simp [hfailed])]
        have hfnil : failed = [] := by
          cases hf : failed with
          | nil => rfl
          | cons a as => rw [hf] at hfailed; simp at hfailed
        constructor
        · intro hc
          exact absurd rfl hc
        · rintro (hk | hex)
          · exact Bool.noConfusion hk
          · exact absurd (hfailed_iff.mp hex) (by simp [hfnil])
      · rw [if_pos (by simp [hfailed])]
        constructor
        · intro _
          refine Or.inr (hfailed_iff.mpr ?_)
          intro hcon
          rw [hcon] at hfailed
          exact hfailed rfl
        · intro _ hcon
          exact Option.noConfusion hcon

theorem fetchQuote_marketCap {net : Except Unit AVResp} {env : Env} {s : String}
    {r : StockData} (h : Client.fetchQuote net env s = some r) : r.marketCap = none := by
  unfold Client.fetchQuote at h
  split at h
  · exact Option.noConfusion h
  · split at h
    · exact Option.noConfusion h
    · split at h
      · exact Option.noConfusion h
      · split at h
        · exact Option.noConfusion h
        · split at h
          · exact (Option.some.inj h) ▸ rfl
          · exact Option.noConfusion h

theorem buildMock_mem_isMock {env : Env} {m : List String} {row : StockData}
    (h : row ∈ Client.buildMock env m) :
    ∃ s i, row = Client.makeMockRow env s i := by
  unfold Client.buildMock at h
  obtain ⟨j, a, _, hb⟩ := mem_mapWithIndex h
  exact ⟨a, j, hb⟩

theorem fetchStocks_marketCap (env : Env) (k : Bool)
    (net : String → Except Unit AVResp) (input : List String) :
    ∀ row ∈ (Client.fetchStocks env k net input).stocks,
      row.marketCap = none ∨ ∃ s i, row = Client.makeMockRow env s i := by
  cases k with
  | false =>
    rw [fetchStocks_false]
    intro row hrow
    exact Or.inr (buildMock_mem_isMock hrow)
  | true =>
    set symbols := Client.normalize input with hsymdef
    set rows := symbols.filterMap (fun s => Client.fetchQuote (net s) env s) with hrowsdef
    set failed := symbols.filter (fun s => (Client.fetchQuote (net s) env s).isNone)
      with hfaileddef
    have hstep : Client.fetchStocks env true net input =
        (if rows.isEmpty then
          { stocks := Client.buildMock env symbols, error := some Client.limitMsg }
        else if !failed.isEmpty then
          { stocks := symbols.filterMap
              (fun s => lookupLast (rows ++ Client.buildMock env failed) s)
            error := some Client.partialMsg }
        else { stocks := rows, error := none }) := rfl
    rw [hstep]
    have hrowcase : ∀ row ∈ rows, row.marketCap = none := by
      intro row hrow
      rw [hrowsdef] at hrow
      obtain ⟨a, _, ha⟩ := List.mem_filterMap.mp hrow
      exact fetchQuote_marketCap ha
    by_cases hrows : rows.isEmpty
    · rw [if_pos hrows]
      intro row hrow
      exact Or.inr (buildMock_mem_isMock hrow)
    · rw [if_neg hrows]
      by_cases hfailed : failed.isEmpty
      · rw [if_neg (by simp [hfailed])]
        intro row hrow
        exact Or.inl (hrowcase row hrow)
      · rw [if_pos (by simp [hfailed])]
        intro row hrow
        obtain ⟨a, _, ha⟩ := List.mem_filterMap.mp hrow
        have hmem := (lookupLast_eq_some ha).1
        rcases List.mem_append.mp hmem with hml | hmr
        · exact Or.inl (hrowcase row hml)
        · exact Or.inr (buildMock_mem_isMock hmr)

theorem jround_eq {q : ℚ} {z : ℤ} (h1 : (z : ℚ) ≤ q + 1 / 2) (h2 : q + 1 / 2 < z + 1) :
    jround q = z := by
  unfold jround
  exact Int.floor_eq_iff.mpr ⟨h1, by linarith⟩

theorem jitter_env0_zero (seed : ℕ) : Client.jitter env0 seed = 0 := by
  unfold Client.jitter env0
  norm_num

/-! ## Claim theorems -/

/-- Claim C5: the numeric normalizer strips grouping separators and
percent signs and parses the remainder; the client `num` maps
`"1,234.56"` to `1234.56`, `"2.3%"` to `2.3`, absent to absent and
`"abc"` to absent.  The serverless copy of `num`, however, lacks the
finiteness check, so it maps the present unparseable string `"abc"` to
a present NaN (`some none`) instead of absent — the claim's
"returns absent on a non-finite parse" fails on that copy (the last
conjunct evaluates the code at the failing input). -/
theorem C5_parseNumber :
    Client.num (some s1) = some (1234.56 : ℚ) ∧
    Client.num (some s2) = some (2.3 : ℚ) ∧
    Client.num none = none ∧
    Client.num (some s3) = none ∧
    Server.num (some s3) = some none := by
  refine ⟨?_, ?_, rfl, ?_, ?_⟩
  · have h : jsParseParts (jsTrim (stripCP s1)).data = some ⟨false, 1234, 56, 2, 0⟩ := by
      decide
    show (jsParseParts (jsTrim (stripCP s1)).data).map assembleQ = some (1234.56 : ℚ)
    rw [h]
    show some (assembleQ ⟨false, 1234, 56, 2, 0⟩) = some (1234.56 : ℚ)
    unfold assembleQ
    norm_num
  · have h : jsParseParts (jsTrim (stripCP s2)).data = some ⟨false, 2, 3, 1, 0⟩ := by
      decide
    show (jsParseParts (jsTrim (stripCP s2)).data).map assembleQ = some (2.3 : ℚ)
    rw [h]
    show some (assembleQ ⟨false, 2, 3, 1, 0⟩) = some (2.3 : ℚ)
    unfold assembleQ
    norm_num
  · have h : jsParseParts (jsTrim (stripCP s3)).data = none := by decide
    show (jsParseParts (jsTrim (stripCP s3)).data).map assembleQ = none
    rw [h]
    rfl
  · have h : jsParseParts (stripCP s3).data = none := by decide
    show some ((jsParseParts (stripCP s3).data).map assembleQ) = some none
    rw [h]
    rfl

/-- Claim C6: the claim holds for the client adapter (its `num` drops
non-finite values and the `== null` check then rejects the symbol), but
the serverless Alpha Vantage adapter violates it: with a quote payload
whose price field is the unparseable string `"abc"`, `num` yields NaN,
NaN passes the `== null` mandatory-field check, and the adapter returns
a record whose `price` is NaN instead of returning no-data.  This
theorem evaluates the serverless adapter at that failing input: the
call returns a present record (for the requested symbol) whose price is
the non-finite `none`. -/
theorem C6_adapter_returns_NaN_record :
    (jsCatch (Server.alphaVantageQuote (Except.ok jBad) (Except.error ()) env0 symA)
        none).map (fun r => (r.symbol, r.price)) = some (symA, (none : JsNum)) := by
  decide

/-- Claim C1, counterexample: on the serverless handler with a Finnhub
key, a request for AAPL and MSFT where the provider satisfies AAPL but
returns no data for MSFT produces a result with NO `error` field even
though MSFT was not satisfied — the claimed "diagnostic present iff
some symbol unsatisfied" fails at this input. -/
theorem C1_counterexample :
    (Server.handler env0 net1 true false (some q2)).error = none ∧
    (Server.handler env0 net1 true false (some q2)).stocks.map StockData.symbol =
      ["AAPL"] ∧
    Server.uniqueSymbols (some q2) = ["AAPL", "MSFT"] := by
  refine ⟨?_, ?_, ?_⟩ <;> decide

/-- Claim C1, amended: the biconditional holds for the client
`fetchStocks` (for a request with at least one normalized symbol, the
diagnostic is present iff the key is missing or some symbol's
`fetchQuote` returned no row); the serverless handler instead carries a
diagnostic exactly when it fell back to the full-mock result — a
partially successful provider pass there loses the failed symbols with
no diagnostic. -/
theorem C1_amended (env : Env) (k : Bool) (netC : String → Except Unit AVResp)
    (input : List String) (hne : Client.normalize input ≠ [])
    (netS : Server.ServerNet) (fk ak : Bool) (q : Option String) :
    ((Client.fetchStocks env k netC input).error ≠ none ↔
      (k = false ∨ ∃ s ∈ Client.normalize input,
        Client.fetchQuote (netC s) env s = none)) ∧
    ((Server.handler env netS fk ak q).error ≠ none ↔
      Server.handler env netS fk ak q =
        Server.mockData env (Server.uniqueSymbols q)) :=
  ⟨fetchStocks_error_iff env k netC input hne,
    handler_error_iff_mock env netS fk ak q⟩

/-- Claim C1, witness: the amended biconditional applied at a concrete
no-key call on `["aapl"]`. -/
theorem C1_witness :
    Client.normalize inAapl ≠ [] ∧
    ((Client.fetchStocks env0 false netErrC inAapl).error ≠ none ↔
      (false = false ∨ ∃ s ∈ Client.normalize inAapl,
        Client.fetchQuote (netErrC s) env0 s = none)) :=
  ⟨by decide,
    (C1_amended env0 false netErrC inAapl (by decide) netErrS true true (some q2)).1⟩

/-- Claim C2, counterexample: on the serverless handler, the same
partial-success run returns one record for two distinct normalized
requested symbols — the claimed "one record per distinct normalized
symbol regardless of which symbols the providers satisfied" fails. -/
theorem C2_counterexample :
    (Server.handler env0 net1 true false (some q2)).stocks.length = 1 ∧
    (Server.uniqueSymbols (some q2)).length = 2 := by
  refine ⟨?_, ?_⟩ <;> decide

/-- Claim C2, amended: the per-symbol count holds on the client
`fetchStocks` path: for every request with at least one normalized
symbol, and providers that echo the requested symbol in the rows they
return, the result has exactly one record per distinct normalized
symbol.  The serverless handler does not satisfy this when a provider
pass succeeds for only part of the symbols (see the counterexample). -/
theorem C2_amended (env : Env) (k : Bool) (netC : String → Except Unit AVResp)
    (input : List String) (hne : Client.normalize input ≠ [])
    (hecho : ∀ s r, Client.fetchQuote (netC s) env s = some r → r.symbol = s) :
    (Client.fetchStocks env k netC input).stocks.length =
      (Client.normalize input).length := by
  have hmap := fetchStocks_map_symbol env k netC input hne hecho
  have hlen := congrArg List.length hmap
  rw [List.length_map] at hlen
  exact hlen

/-- Claim C2, witness: the amended count at a concrete no-key call. -/
theorem C2_witness :
    (Client.fetchStocks env0 false netErrC inAapl).stocks.length =
      (Client.normalize inAapl).length :=
  C2_amended env0 false netErrC inAapl (by decide)
    (fun s r h => Option.noConfusion h)

/-- Claim C4, counterexample: on the serverless partial-success run the
output symbol sequence is a strict subsequence, not equal to the
normalized input order, so "output order always equals the
normalized-input symbol order" fails when read as sequence equality. -/
theorem C4_counterexample :
    (Server.handler env0 net1 true false (some q2)).stocks.map StockData.symbol ≠
      Server.uniqueSymbols (some q2) := by
  decide

/-- Claim C4, amended: order is always consistent with the normalized
input.  On the client path the output symbol sequence EQUALS the
normalized input (given at least one normalized symbol and providers
that echo the requested symbol); on the serverless handler the output
symbol sequence is always a subsequence of the normalized input (equal
whenever no row is dropped), so relative order never deviates from the
normalized-input order on either path. -/
theorem C4_amended (env : Env) (k : Bool) (netC : String → Except Unit AVResp)
    (input : List String) (hne : Client.normalize input ≠ [])
    (hecho : ∀ s r, Client.fetchQuote (netC s) env s = some r → r.symbol = s)
    (netS : Server.ServerNet) (fk ak : Bool) (q : Option String) :
    ((Client.fetchStocks env k netC input).stocks.map StockData.symbol =
      Client.normalize input) ∧
    List.Sublist (((Server.handler env netS fk ak q).stocks).map StockData.symbol)
      (Server.uniqueSymbols q) :=
  ⟨fetchStocks_map_symbol env k netC input hne hecho,
    handler_symbol_sublist env netS fk ak q⟩

/-- Claim C4, witness: the amended order property at a concrete no-key
call. -/
theorem C4_witness :
    (Client.fetchStocks env0 false netErrC inAapl).stocks.map StockData.symbol =
      Client.normalize inAapl :=
  (C4_amended env0 false netErrC inAapl (by decide)
    (fun s r h => Option.noConfusion h) netErrS true true (some q2)).1

/-- Claim C9, counterexample: a serverless request whose `symbols`
query parameter is PRESENT but normalises to the empty list gets no
default-symbol substitution: the returned `stocks` is empty, refuting
"the returned QuoteResult's stocks sequence is never empty". -/
theorem C9_counterexample :
    (Server.handler env0 net1 false false (some qws)).stocks = [] ∧
    Server.uniqueSymbols (some qws) = [] := by
  refine ⟨?_, ?_⟩ <;> decide

/-- Claim C9, amended: the client `fetchStocks` substitutes the fixed
default symbol set whenever the normalized request is empty (its
`stocks` is then the five default mock rows, never empty); the
serverless `uniqueSymbols` substitutes the default set only when the
`symbols` query parameter is ABSENT — a present parameter that
normalises to empty yields an empty symbol list and hence an empty
`stocks` (see the counterexample). -/
theorem C9_amended (env : Env) (k : Bool) (netC : String → Except Unit AVResp)
    (input : List String) (hempty : Client.normalize input = []) :
    ((Client.fetchStocks env k netC input).stocks.map StockData.symbol =
      defaultSymbols) ∧
    Server.uniqueSymbols none = defaultSymbols := by
  constructor
  · have hdef : (Client.buildMock env (Client.normalize input)).map StockData.symbol =
        defaultSymbols := by
      rw [hempty, buildMock_nil]
      exact map_mapWithIndex _ _ (fun _ _ => rfl) _
    cases k with
    | false =>
      rw [fetchStocks_false]
      exact hdef
    | true =>
      rw [fetchStocks_all_none env netC input (by rw [hempty]; intro s hs; simp at hs)]
      exact hdef
  · decide

/-- Claim C9, witness: the amended statement at the concrete
whitespace-only request. -/
theorem C9_witness :
    Client.normalize inWs = [] ∧
    (Client.fetchStocks env0 false netErrC inWs).stocks.map StockData.symbol =
      defaultSymbols :=
  ⟨by decide, (C9_amended env0 false netErrC inWs (by decide)).1⟩

/-- Claim C3: no provider fault crosses the entry points.  Every
`fetch`/`json` interaction in the embedding is an `Except`-valued
oracle (`.error` = a thrown transport error or malformed-JSON
rejection), and both entry points are total functions of those oracles:
the client adapter's surrounding `try/catch` and the serverless
`.catch(() => null)` wrappers convert every fault to a per-symbol
no-row outcome.  Concretely, whenever every per-symbol call produces no
row — including when every call throws — the client returns the full
mock result with the rate-limit diagnostic and the serverless handler
returns the full mock result with its mock diagnostic; the only failure
signal is the `error` string of a well-formed result. -/
theorem C3_no_fault_propagation (env : Env) (netC : String → Except Unit AVResp)
    (netS : Server.ServerNet) (input : List String) (fk ak : Bool) (q : Option String)
    (hC : ∀ s ∈ Client.normalize input, Client.fetchQuote (netC s) env s = none)
    (hF : ∀ s ∈ Server.uniqueSymbols q,
      jsCatch (Server.finnhubQuote (netS.finnQuote s) (netS.finnProfile s) env s)
        none = none)
    (hA : ∀ s ∈ Server.uniqueSymbols q,
      jsCatch (Server.alphaVantageQuote (netS.avQuote s) (netS.avOverview s) env s)
        none = none) :
    Client.fetchStocks env true netC input =
      { stocks := Client.buildMock env (Client.normalize input)
        error := some Client.limitMsg } ∧
    Server.handler env netS fk ak q =
      Server.mockData env (Server.uniqueSymbols q) :=
  ⟨fetchStocks_all_none env netC input hC, handler_all_mock env netS fk ak q hF hA⟩

/-- Claim C3, witness: the graceful-degradation conclusion under the
network on which every call throws. -/
theorem C3_witness :
    Client.fetchStocks env0 true netErrC inAapl =
      { stocks := Client.buildMock env0 (Client.normalize inAapl)
        error := some Client.limitMsg } ∧
    Server.handler env0 netErrS true true (some q2) =
      Server.mockData env0 (Server.uniqueSymbols (some q2)) :=
  C3_no_fault_propagation env0 netErrC netErrS inAapl true true (some q2)
    (fun _ _ => rfl) (fun _ _ => rfl) (fun _ _ => rfl)

/-- Claim C7: minute-bucket determinism of the mock generators.  For
the same symbol and index, two environments that agree on `Math.sin`
and whose wall-clock instants fall into the same minute bucket
(`floor(nowMs / 60000)`, i.e. `floor(epochSeconds / 60)`) produce
identical `price`, `change`, `changePercent`, `marketCap` and `volume`
in both the client `makeMockRow` and the serverless mock row (only
`lastUpdated` may differ inside the minute). -/
theorem C7_mock_determinism (e1 e2 : Env) (s : String) (i : ℕ)
    (hsin : e1.msin = e2.msin) (hb : minuteBucket e1 = minuteBucket e2) :
    ((Client.makeMockRow e1 s i).price = (Client.makeMockRow e2 s i).price ∧
     (Client.makeMockRow e1 s i).change = (Client.makeMockRow e2 s i).change ∧
     (Client.makeMockRow e1 s i).changePercent =
       (Client.makeMockRow e2 s i).changePercent ∧
     (Client.makeMockRow e1 s i).marketCap = (Client.makeMockRow e2 s i).marketCap ∧
     (Client.makeMockRow e1 s i).volume = (Client.makeMockRow e2 s i).volume) ∧
    ((Server.mockRow e1 i s).price = (Server.mockRow e2 i s).price ∧
     (Server.mockRow e1 i s).change = (Server.mockRow e2 i s).change ∧
     (Server.mockRow e1 i s).changePercent = (Server.mockRow e2 i s).changePercent ∧
     (Server.mockRow e1 i s).marketCap = (Server.mockRow e2 i s).marketCap ∧
     (Server.mockRow e1 i s).volume = (Server.mockRow e2 i s).volume) := by
  have hj : Client.jitter e1 (i + jsCharCode0 s) =
      Client.jitter e2 (i + jsCharCode0 s) := by
    unfold Client.jitter
    rw [hsin, hb]
  have hr : Server.mockR e1 i = Server.mockR e2 i := by
    unfold Server.mockR
    rw [hsin, hb]
  unfold Client.makeMockRow Server.mockRow
  dsimp only
  rw [hj, hr]
  exact ⟨⟨rfl, rfl, rfl, rfl, rfl⟩, rfl, rfl, rfl, rfl, rfl⟩

/-- Claim C7, witness: two instants 29 seconds apart in minute bucket 0
generate the same numeric fields. -/
theorem C7_witness :
    minuteBucket env1 = minuteBucket env2 ∧
    (Client.makeMockRow env1 symA 0).price = (Client.makeMockRow env2 symA 0).price ∧
    (Server.mockRow env1 0 symA).volume = (Server.mockRow env2 0 symA).volume := by
  have h := C7_mock_determinism env1 env2 symA 0 rfl rfl
  exact ⟨rfl, h.1.1, h.2.2.2.2.2⟩

/-- Claim C8, amended: in both mock generators the pseudo-random
fraction `r` lies in `[0, 1]` and is mapped to a percent change
`r * 6 - 3` in `[-3, +3]`; `price` is the baseline price times
`(1 + pct/100)` rounded to 2 decimals, `changePercent` is `pct` rounded
to 2 decimals, and `change` is `price * changePercent / 100` rounded to
2 decimals.  The volume scaling differs between the two generators: the
SERVERLESS generator scales the baseline volume by `0.8 + r * 0.4` as
the claim states, while the CLIENT generator scales it by
`0.85 + r * 0.3`; both bound the result below at 1. -/
theorem C8_amended (env : Env) (s : String) (i : ℕ) :
    (∃ r, r = Client.jitter env (i + jsCharCode0 s) ∧ 0 ≤ r ∧ r < 1 ∧
      -3 ≤ r * 6 - 3 ∧ r * 6 - 3 ≤ 3 ∧
      (Client.makeMockRow env s i).price =
        some (toFixed2 ((Client.mockBase s i).price * (1 + (r * 6 - 3) / 100))) ∧
      (Client.makeMockRow env s i).changePercent = some (toFixed2 (r * 6 - 3)) ∧
      (Client.makeMockRow env s i).change =
        some (toFixed2 (toFixed2 ((Client.mockBase s i).price * (1 + (r * 6 - 3) / 100)) *
          toFixed2 (r * 6 - 3) / 100)) ∧
      (Client.makeMockRow env s i).volume =
        some (some ((max 1 (jround ((Client.mockBase s i).vol * (0.85 + r * 0.3))) : ℤ) : ℚ))) ∧
    (∃ r, r = Server.mockR env i ∧ 0 ≤ r ∧ r ≤ 1 ∧
      -3 ≤ r * 6 - 3 ∧ r * 6 - 3 ≤ 3 ∧
      (Server.mockRow env i s).price =
        some (toFixed2 ((Server.mockBase s i).price * (1 + (r * 6 - 3) / 100))) ∧
      (Server.mockRow env i s).changePercent = some (toFixed2 (r * 6 - 3)) ∧
      (Server.mockRow env i s).change =
        some (toFixed2 (toFixed2 ((Server.mockBase s i).price * (1 + (r * 6 - 3) / 100)) *
          toFixed2 (r * 6 - 3) / 100)) ∧
      (Server.mockRow env i s).volume =
        some (some ((max 1 (jround ((Server.mockBase s i).vol * (0.8 + r * 0.4))) : ℤ) : ℚ))) := by
  obtain ⟨hj0, hj1⟩ := jitter_bounds env (i + jsCharCode0 s)
  obtain ⟨hr0, hr1⟩ := mockR_bounds env i
  constructor
  · exact ⟨Client.jitter env (i + jsCharCode0 s), rfl, hj0, hj1,
      by linarith, by linarith, rfl, rfl, rfl, rfl⟩
  · exact ⟨Server.mockR env i, rfl, hr0, hr1,
      by linarith, by linarith, rfl, rfl, rfl, rfl⟩

/-- Claim C8, counterexample: the claim's volume formula
(baseline volume scaled by `0.8 + r * 0.4`) does not hold for the
client mock generator: at `r = 0` (the jitter value under `env0`) the
client row's volume is `round(58000000 * 0.85) = 49300000`, whereas the
claimed formula yields `round(58000000 * 0.8) = 46400000`. -/
theorem C8_counterexample :
    (Client.makeMockRow env0 symA 0).volume ≠
      some (some ((max 1 (jround ((Client.mockBase symA 0).vol *
        (0.8 + Client.jitter env0 (0 + jsCharCode0 symA) * 0.4))) : ℤ) : ℚ)) := by
  have hj := jitter_env0_zero (0 + jsCharCode0 symA)
  have hv1 : (Client.makeMockRow env0 symA 0).volume =
      some (some ((max 1 (jround ((Client.mockBase symA 0).vol *
        (0.85 + Client.jitter env0 (0 + jsCharCode0 symA) * 0.3))) : ℤ) : ℚ)) := rfl
  have hb : Client.mockBase symA 0 = ⟨230.12, 3.55e12, 58000000⟩ := rfl
  rw [hv1, hj, hb]
  dsimp only
  have h1 : jround ((58000000 : ℚ) * (0.85 + 0 * 0.3)) = 49300000 :=
    jround_eq (by norm_num) (by norm_num)
  have h2 : jround ((58000000 : ℚ) * (0.8 + 0 * 0.4)) = 46400000 :=
    jround_eq (by norm_num) (by norm_num)
  rw [h1, h2]
  intro hcon
  have := Option.some.inj (Option.some.inj hcon)
  norm_num at this

/-- Claim C10: in the client path, every provider-sourced record has
`marketCap` absent — `fetchQuote` constructs records with no
`marketCap` field and performs no enrichment call — so in every
`fetchStocks` result a row either has `marketCap` absent or is a row
produced by the mock generator. -/
theorem C10_client_marketCap_absent (env : Env) (k : Bool)
    (netC : String → Except Unit AVResp) (input : List String) :
    (∀ (netq : Except Unit AVResp) (s : String) (r : StockData),
      Client.fetchQuote netq env s = some r → r.marketCap = none) ∧
    (∀ row ∈ (Client.fetchStocks env k netC input).stocks,
      row.marketCap = none ∨ ∃ s i, row = Client.makeMockRow env s i) :=
  ⟨fun _ _ _ h => fetchQuote_marketCap h, fetchStocks_marketCap env k netC input⟩

/-- Claim C10, witness: the dichotomy applied to the single mock row of
a concrete no-key call. -/
theorem C10_witness :
    Client.makeMockRow env0 symA 0 ∈
      (Client.fetchStocks env0 false netErrC inAapl).stocks ∧
    ((Client.makeMockRow env0 symA 0).marketCap = none ∨
      ∃ s i, Client.makeMockRow env0 symA 0 = Client.makeMockRow env0 s i) := by
  have hmem : Client.makeMockRow env0 symA 0 ∈
      (Client.fetchStocks env0 false netErrC inAapl).stocks := by
    show Client.makeMockRow env0 symA 0 ∈ [Client.makeMockRow env0 symA 0]
    exact List.mem_singleton.mpr rfl
  exact ⟨hmem, (C10_client_marketCap_absent env0 false netErrC inAapl).2 _ hmem⟩
